import Mathlib

attribute [local semireducible] Rat.ofScientific

/-!
Shallow embedding of the CardVoice voice-engine text parsers
(`src/backend/voice/engine.py`): the spoken-number scanner, the
card/quantity pair extractor, and the output formatter, together with
proofs about them.

Modelling conventions:
* Python strings are Lean `String`s; tokens are examined through their
  character lists.
* Every integer arising in these parsers is nonnegative (normalization
  removes every dash before any `int` conversion), so `Nat` is used.
* Confidence floats only ever hold the literal constants 0.98, 0.85,
  0.70, 0.5 and results of `min` on them, all exactly representable, so
  they are modelled as rationals.
* Python's regex class `\d`, `str.lower` and `\s` are modelled over
  ASCII, which covers every string considered in the claims.
* `QTY_TOKENS` is a Python `set`, iterated with `for ... break`; the
  iteration order of a string set is unspecified.  The model fixes the
  insertion order of the literal.  No claim depends on a token matching
  more than one quantity keyword.
-/

/-- Digits-to-value fold: the value of a digit-character run. -/
def natOfDigits (l : List Char) : Nat :=
  l.foldl (fun a c => 10 * a + (c.toNat - 48)) 0

/-- Test for `re.match(r'^\d+$', token)`: nonempty, all digits. -/
def isDigits (t : String) : Bool :=
  !t.data.isEmpty && t.data.all Char.isDigit

/-- List-level test that `kw` is a leading piece of `l`
(Python `str.startswith`). -/
def hasPre : List Char → List Char → Bool
  | [], _ => true
  | _ :: _, [] => false
  | a :: xs, b :: ys => a = b && hasPre xs ys

/-- Character-level normalization shared by both parsers: lowercase, then
map every dash-family character, sentence punctuation mark and whitespace
character to a space (Python `str.lower` plus the three `re.sub` calls). -/
def normChar (c : Char) : Char :=
  let c := c.toLower
  if c = '-' ∨ c = '–' ∨ c = '—' ∨ c = ',' ∨ c = '.' ∨ c = '!' ∨
      c = '?' ∨ c = ';' ∨ c = ':' ∨ c.isWhitespace then ' ' else c

/-- Accumulator worker for `splitSp`; `acc` holds the current word,
reversed. -/
def splitSpAux : List Char → List Char → List (List Char)
  | [], acc => if acc.isEmpty then [] else [acc.reverse]
  | c :: cs, acc =>
    if c = ' ' then
      if acc.isEmpty then splitSpAux cs [] else acc.reverse :: splitSpAux cs []
    else splitSpAux cs (c :: acc)

/-- Split a character list on spaces, dropping empty pieces
(Python `str.split()` after whitespace has been normalized to spaces). -/
def splitSp (l : List Char) : List (List Char) :=
  splitSpAux l []

/-- Tokenization used by `parse_spoken_numbers`: normalize characters and
split on whitespace. -/
def tokenize (text : String) : List String :=
  (splitSp (text.data.map normChar)).map String.mk

/-- The `WORD_TO_NUM` table of `engine.py`, as a lookup function. -/
def WORD_TO_NUM : String → Option Nat
  | "zero" => some 0
  | "one" => some 1
  | "two" => some 2
  | "three" => some 3
  | "four" => some 4
  | "five" => some 5
  | "six" => some 6
  | "seven" => some 7
  | "eight" => some 8
  | "nine" => some 9
  | "won" => some 1
  | "wan" => some 1
  | "wun" => some 1
  | "to" => some 2
  | "too" => some 2
  | "tu" => some 2
  | "tew" => some 2
  | "tree" => some 3
  | "free" => some 3
  | "for" => some 4
  | "fore" => some 4
  | "fo" => some 4
  | "fife" => some 5
  | "sick" => some 6
  | "sicks" => some 6
  | "ate" => some 8
  | "nein" => some 9
  | "ten" => some 10
  | "tin" => some 10
  | "eleven" => some 11
  | "twelve" => some 12
  | "thirteen" => some 13
  | "fourteen" => some 14
  | "fifteen" => some 15
  | "sixteen" => some 16
  | "seventeen" => some 17
  | "eighteen" => some 18
  | "nineteen" => some 19
  | "twenty" => some 20
  | "thirty" => some 30
  | "forty" => some 40
  | "fourty" => some 40
  | "fifty" => some 50
  | "fitty" => some 50
  | "sixty" => some 60
  | "seventy" => some 70
  | "eighty" => some 80
  | "ninety" => some 90
  | "hundred" => some 100
  | _ => none

/-- The `MULT_WORDS` set of `engine.py`. -/
def MULT_WORDS : List String :=
  ["times", "x", "of", "count", "quantity", "qty", "stock", "copies", "copy", "ex"]

/-- The `SKIP_WORDS` set of `engine.py`. -/
def SKIP_WORDS : List String :=
  ["and", "the", "a", "an", "um", "uh", "like", "okay", "ok",
   "card", "number", "hash", "pound", "next", "then", "also",
   "have", "got", "need", "want", "is", "are", "it", "that",
   "this", "so", "yeah", "yes", "no", "not", "with", "from"]

/-- Python `int(token)` applied to a normalized token.  Normalization has
removed every dash, so no minus sign can occur; an optional leading plus
sign followed by digits is accepted, anything else raises `ValueError`,
modelled as `none`. -/
def pyInt (t : String) : Option Nat :=
  let l := if t.data.head? = some '+' then t.data.tail else t.data
  if !l.isEmpty && l.all Char.isDigit then some (natOfDigits l) else none

/-- The `_parse_single_number` helper: lexicon lookup, then `int()`. -/
def parse_single_number (t : String) : Option Nat :=
  match WORD_TO_NUM t with
  | some v => some v
  | none => pyInt t

/-- Tail of the hundreds rule of `_parse_compound_number` (lines 163-180):
`j` is the index of the token examined after `<digit> hundred` and an
optional `and`; `value` and `consumed` are the amounts accumulated so
far. -/
def hundredTail (tokens : List String) (j : Nat) (value : Nat) (consumed : Nat) :
    Option Nat × Nat :=
  match tokens[j]? with
  | none => (some value, consumed)
  | some nt =>
    match parse_single_number nt with
    | none => (some value, consumed)
    | some nv =>
      if 1 ≤ nv ∧ nv ≤ 19 then (some (value + nv), consumed + 1)
      else if 20 ≤ nv ∧ nv ≤ 90 then
        match tokens[j + 1]? with
        | none => (some (value + nv), consumed + 1)
        | some ot =>
          match parse_single_number ot with
          | some ov =>
            if 1 ≤ ov ∧ ov ≤ 9 then (some (value + nv + ov), consumed + 2)
            else (some (value + nv), consumed + 1)
          | none => (some (value + nv), consumed + 1)
      else (some value, consumed)

/-- The `_parse_compound_number` matcher: returns the matched value (if
any) and the number of tokens consumed. -/
def parse_compound_number (tokens : List String) (start : Nat) : Option Nat × Nat :=
  match tokens[start]? with
  | none => (none, 0)
  | some token =>
    if isDigits token then (some (natOfDigits token.data), 1)
    else
      match WORD_TO_NUM token with
      | none => (none, 0)
      | some value =>
        if 1 ≤ value ∧ value ≤ 9 ∧ tokens[start + 1]? = some "hundred" then
          if tokens[start + 2]? = some "and" then
            hundredTail tokens (start + 3) (value * 100) 3
          else
            hundredTail tokens (start + 2) (value * 100) 2
        else if 20 ≤ value ∧ value ≤ 90 then
          match tokens[start + 1]? with
          | some nt =>
            match parse_single_number nt with
            | some nv =>
              if 1 ≤ nv ∧ nv ≤ 9 then (some (value + nv), 2) else (some value, 1)
            | none => (some value, 1)
          | none => (some value, 1)
        else (some value, 1)

/-- Accumulator worker modelling `re.findall(r'\d+', token)`: the maximal
digit runs of a character list (`acc` holds the current run, reversed). -/
def digitRunsAux : List Char → List Char → List (List Char)
  | [], acc => if acc.isEmpty then [] else [acc.reverse]
  | c :: cs, acc =>
    if c.isDigit then digitRunsAux cs (c :: acc)
    else if acc.isEmpty then digitRunsAux cs [] else acc.reverse :: digitRunsAux cs []

/-- Values of the embedded digit runs of a token that pass the `1..9999`
range check (the fallback extraction of `parse_spoken_numbers`,
lines 110-116). -/
def digitValues (t : String) : List Nat :=
  ((digitRunsAux t.data []).map natOfDigits).filter (fun v => 1 ≤ v && v ≤ 9999)

/-- New `last_number` after the fallback branch appended the values `ds`:
the last appended value, or the previous `last_number` if none. -/
def lastUpd (ds : List Nat) (last : Option Nat) : Option Nat :=
  match ds.getLast? with
  | some v => some v
  | none => last

/-- One iteration of the `while` loop of `parse_spoken_numbers`
(lines 80-117): returns the values appended during the iteration, the next
position, and the next `last_number`. -/
def scanStep (tokens : List String) (i : Nat) (last : Option Nat) :
    List Nat × Nat × Option Nat :=
  match tokens[i]? with
  | none => ([], i + 1, last)
  | some token =>
    if token ∈ SKIP_WORDS then ([], i + 1, last)
    else if token ∈ MULT_WORDS ∧ last.isSome then
      match last, tokens[i + 1]? with
      | some ln, some nt =>
        match parse_single_number nt with
        | some m =>
          if 1 ≤ m ∧ m ≤ 50 then (List.replicate (m - 1) ln, i + 2, last)
          else ([], i + 1, last)
        | none => ([], i + 1, last)
      | _, _ => ([], i + 1, last)
    else
      match parse_compound_number tokens i with
      | (some n, consumed) =>
        if 1 ≤ n ∧ n ≤ 9999 then ([n], i + consumed, some n)
        else (digitValues token, i + 1, lastUpd (digitValues token) last)
      | (none, _) => (digitValues token, i + 1, lastUpd (digitValues token) last)

/-- The scanning loop of `parse_spoken_numbers`: iterate `scanStep` from
position `i` until the end of the token list, concatenating the emitted
values. -/
def scanAux (tokens : List String) (i : Nat) (last : Option Nat) : List Nat :=
  if _h : i < tokens.length then
    (scanStep tokens i last).1 ++
      scanAux tokens (scanStep tokens i last).2.1 (scanStep tokens i last).2.2
  else []
termination_by tokens.length - i
decreasing_by
  have hc : ∀ n c, parse_compound_number tokens i = (some n, c) → 1 ≤ c := by
    intro n c hpc
    unfold parse_compound_number at hpc
    repeat' split at hpc
    all_goals try (unfold hundredTail at hpc; repeat' split at hpc)
    all_goals cases hpc
    all_goals omega
  have hs : i < (scanStep tokens i last).2.1 := by
    unfold scanStep
    repeat' split
    all_goals simp
    all_goals
      have h9 := hc _ _ (by assumption)
      omega
  omega

/-- The `parse_spoken_numbers` entry point. -/
def parse_spoken_numbers (text : String) : List Nat :=
  scanAux (tokenize text) 0 none

/-- Fuel-indexed mirror of `scanAux`, structurally recursive so that it
evaluates inside the kernel; `none` means the fuel ran out before the loop
reached the end of the token list. -/
def scanFuel : Nat → List String → Nat → Option Nat → Option (List Nat)
  | 0, tokens, i, _ => if i < tokens.length then none else some []
  | fuel + 1, tokens, i, last =>
    if i < tokens.length then
      (scanFuel fuel tokens (scanStep tokens i last).2.1 (scanStep tokens i last).2.2).map
        ((scanStep tokens i last).1 ++ ·)
    else some []

/-- Python regex word characters (`\w`), over ASCII. -/
def isWordChar (c : Char) : Bool := c.isAlphanum || c = '_'

/-- Worker for `re.split(r'\bcard\b', s)`: splits at every occurrence of
`card` delimited by word boundaries; `prevW` records whether the previous
character was a word character, `acc` the current segment, reversed. -/
def splitCardAux : List Char → Bool → List Char → List (List Char)
  | [], _, acc => [acc.reverse]
  | 'c' :: 'a' :: 'r' :: 'd' :: rest, false, acc =>
    if (rest.head?.map isWordChar).getD false then
      splitCardAux ('a' :: 'r' :: 'd' :: rest) true ('c' :: acc)
    else acc.reverse :: splitCardAux rest true []
  | c :: cs, _, acc => splitCardAux cs (isWordChar c) (c :: acc)

/-- Collapse runs of spaces to a single space (`re.sub(r'\s+', ' ', s)`
after every whitespace character has been normalized to a space). -/
def collapseSpAux : List Char → Bool → List Char
  | [], _ => []
  | c :: cs, prevSp =>
    if c = ' ' then
      if prevSp then collapseSpAux cs true else ' ' :: collapseSpAux cs true
    else c :: collapseSpAux cs false

/-- Python `str.strip()` on a space-normalized character list. -/
def trimSp (l : List Char) : List Char :=
  ((l.dropWhile (· = ' ')).reverse.dropWhile (· = ' ')).reverse

/-- The segments processed by `parse_card_quantities` (lines 223-233):
normalize, split on the word `card`, strip each part, drop empty parts,
tokenize each part. -/
def segsOf (text : String) : List (List String) :=
  ((((splitCardAux (trimSp (collapseSpAux (text.data.map normChar) false)) false []).map
      trimSp).filter (fun p => !p.isEmpty)).map (fun p => (splitSpAux p []).map String.mk))

/-- Remainder of a token after its leading digits (`m_leading.group(2)`,
line 263); an empty remainder is `None`. -/
def remOf (token : String) (ds : List Char) : Option String :=
  if (token.data.drop ds.length).isEmpty then none
  else some (String.mk (token.data.drop ds.length))

/-- The card-id loop of `parse_card_quantities` (lines 246-266): find the
first token carrying a number; returns the id, the next position and the
leading-digit-split remainder, or `none` if the segment has no number. -/
def findId (tokens : List String) (i : Nat) : Option (Nat × Nat × Option String) :=
  if _h : i < tokens.length then
    match parse_compound_number tokens i with
    | (some n, consumed) => some (n, i + consumed, none)
    | (none, _) =>
      if isDigits tokens[i] then some (natOfDigits tokens[i].data, i + 1, none)
      else
        if (tokens[i].data.takeWhile Char.isDigit).isEmpty then findId tokens (i + 1)
        else some (natOfDigits (tokens[i].data.takeWhile Char.isDigit), i + 1,
          remOf tokens[i] (tokens[i].data.takeWhile Char.isDigit))
  else none
termination_by tokens.length - i
decreasing_by omega

/-- The `QTY_TOKENS` set of `parse_card_quantities` (line 221), in the
insertion order of the literal. -/
def QTY_TOKENS : List String :=
  ["q", "que", "cue", "qty", "quantity", "count", "x", "times"]

/-- The token-remainder check of `parse_card_quantities` (lines 275-286):
if the remainder of the split id token starts with a quantity keyword, the
explicit flag is raised, and digits directly after the keyword give the
quantity. -/
def remQty (r : String) : Option Nat × Bool :=
  match QTY_TOKENS.find? (fun kw => hasPre kw.data r.data) with
  | none => (none, false)
  | some kw =>
    let ds := (r.data.drop kw.data.length).takeWhile Char.isDigit
    (if ds.isEmpty then none else some (natOfDigits ds), true)

/-- The `<digits><letters>` test of lines 334-338: a token with leading
digits followed by lowercase letters forming a quantity keyword. -/
def attachedQty (token : String) : Bool :=
  !(token.data.takeWhile Char.isDigit).isEmpty &&
    !((token.data.drop (token.data.takeWhile Char.isDigit).length).takeWhile
      (fun c => 'a' ≤ c && c ≤ 'z')).isEmpty &&
    String.mk ((token.data.drop (token.data.takeWhile Char.isDigit).length).takeWhile
      (fun c => 'a' ≤ c && c ≤ 'z')) ∈ QTY_TOKENS

/-- The quantity loop of `parse_card_quantities` (lines 289-356): scan from
position `i` with the current explicit-keyword flag; returns the quantity
found (if any) and the final flag. -/
def findQty (tokens : List String) (i : Nat) (explicit : Bool) : Option Nat × Bool :=
  if _h : i < tokens.length then
    if tokens[i] ∈ SKIP_WORDS then findQty tokens (i + 1) explicit
    else
      match QTY_TOKENS.find? (fun kw => hasPre kw.data tokens[i].data) with
      | some kw =>
        if !((tokens[i].data.drop kw.data.length).takeWhile Char.isDigit).isEmpty then
          (some (natOfDigits ((tokens[i].data.drop kw.data.length).takeWhile Char.isDigit)),
            true)
        else
          if _h2 : i + 1 < tokens.length then
            match parse_compound_number tokens (i + 1) with
            | (some n, _) => (some n, true)
            | (none, _) =>
              if !(tokens[i + 1].data.takeWhile Char.isDigit).isEmpty then
                (some (natOfDigits (tokens[i + 1].data.takeWhile Char.isDigit)), true)
              else findQty tokens (i + 1) true
          else findQty tokens (i + 1) true
      | none =>
        if attachedQty tokens[i] then
          (some (natOfDigits (tokens[i].data.takeWhile Char.isDigit)), explicit)
        else
          match parse_compound_number tokens i with
          | (some n, _) => (some n, explicit)
          | (none, _) =>
            if isDigits tokens[i] then (some (natOfDigits tokens[i].data), explicit)
            else findQty tokens (i + 1) explicit
  else (none, explicit)
termination_by tokens.length - i
decreasing_by all_goals omega

/-- Quantity resolution for one segment: the token-remainder check first
(lines 274-286), then the quantity loop (lines 289-356) with the flag it
produced. -/
def segQty (tokens : List String) (i : Nat) (rem : Option String) : Option Nat × Bool :=
  match rem with
  | some r =>
    match remQty r with
    | (some q, e) => (some q, e)
    | (none, e) => findQty tokens i e
  | none => findQty tokens i false

/-- Confidence assignment of lines 364-376: 0.98 with the explicit flag,
0.70 without, capped at 0.5 when the quantity is zero. -/
def confOf (e : Bool) (q : Nat) : ℚ :=
  let c : ℚ := if e then 0.98 else 0.70
  if q = 0 then min c 0.5 else c

/-- The pair built for a segment from its card id and the result of
quantity resolution (lines 358-378): a missing quantity defaults to 1 with
confidence 0.85. -/
def qtyTail (cid : Nat) (qe : Option Nat × Bool) : Nat × Nat × ℚ :=
  match qe with
  | (none, _) => (cid, 1, 0.85)
  | (some q, e) => (cid, q, confOf e q)

/-- Processing of one segment of `parse_card_quantities`
(lines 232-378): a segment contributes a pair exactly when a card id is
found in it. -/
def processSegment (tokens : List String) : Option (Nat × Nat × ℚ) :=
  (findId tokens 0).map fun idr => qtyTail idr.1 (segQty tokens idr.2.1 idr.2.2)

/-- The `parse_card_quantities` entry point. -/
def parse_card_quantities (text : String) : List (Nat × Nat × ℚ) :=
  (segsOf text).filterMap processSegment

/-- Fuel-indexed mirror of `findId`, structurally recursive so that it
evaluates inside the kernel. -/
def findIdF : Nat → List String → Nat → Option (Option (Nat × Nat × Option String))
  | 0, tokens, i => if i < tokens.length then none else some none
  | fuel + 1, tokens, i =>
    if _h : i < tokens.length then
      match parse_compound_number tokens i with
      | (some n, consumed) => some (some (n, i + consumed, none))
      | (none, _) =>
        if isDigits tokens[i] then some (some (natOfDigits tokens[i].data, i + 1, none))
        else
          if (tokens[i].data.takeWhile Char.isDigit).isEmpty then findIdF fuel tokens (i + 1)
          else some (some (natOfDigits (tokens[i].data.takeWhile Char.isDigit), i + 1,
            remOf tokens[i] (tokens[i].data.takeWhile Char.isDigit)))
    else some none

/-- Fuel-indexed mirror of `findQty`, structurally recursive so that it
evaluates inside the kernel. -/
def findQtyF : Nat → List String → Nat → Bool → Option (Option Nat × Bool)
  | 0, tokens, i, explicit => if i < tokens.length then none else some (none, explicit)
  | fuel + 1, tokens, i, explicit =>
    if _h : i < tokens.length then
      if tokens[i] ∈ SKIP_WORDS then findQtyF fuel tokens (i + 1) explicit
      else
        match QTY_TOKENS.find? (fun kw => hasPre kw.data tokens[i].data) with
        | some kw =>
          if !((tokens[i].data.drop kw.data.length).takeWhile Char.isDigit).isEmpty then
            some (some (natOfDigits ((tokens[i].data.drop kw.data.length).takeWhile
              Char.isDigit)), true)
          else
            if _h2 : i + 1 < tokens.length then
              match parse_compound_number tokens (i + 1) with
              | (some n, _) => some (some n, true)
              | (none, _) =>
                if !(tokens[i + 1].data.takeWhile Char.isDigit).isEmpty then
                  some (some (natOfDigits (tokens[i + 1].data.takeWhile Char.isDigit)), true)
                else findQtyF fuel tokens (i + 1) true
            else findQtyF fuel tokens (i + 1) true
        | none =>
          if attachedQty tokens[i] then
            some (some (natOfDigits (tokens[i].data.takeWhile Char.isDigit)), explicit)
          else
            match parse_compound_number tokens i with
            | (some n, _) => some (some n, explicit)
            | (none, _) =>
              if isDigits tokens[i] then some (some (natOfDigits tokens[i].data), explicit)
              else findQtyF fuel tokens (i + 1) explicit
    else some (none, explicit)

/-- Fuel-indexed mirror of `segQty`. -/
def segQtyF (fuel : Nat) (tokens : List String) (i : Nat) (rem : Option String) :
    Option (Option Nat × Bool) :=
  match rem with
  | some r =>
    match remQty r with
    | (some q, e) => some (some q, e)
    | (none, e) => findQtyF fuel tokens i e
  | none => findQtyF fuel tokens i false

/-- Fuel-indexed mirror of `processSegment`. -/
def processSegmentF (tokens : List String) : Option (Option (Nat × Nat × ℚ)) :=
  (findIdF tokens.length tokens 0).bind fun ido =>
    ido.elim (some none) fun idr =>
      (segQtyF tokens.length tokens idr.2.1 idr.2.2).map fun qe =>
        some (qtyTail idr.1 qe)

/-- Fuel-indexed mirror of `parse_card_quantities`. -/
def parse_card_quantitiesF (text : String) : Option (List (Nat × Nat × ℚ)) :=
  (segsOf text).foldr
    (fun seg acc =>
      match processSegmentF seg, acc with
      | some r, some l => some (match r with | some pr => pr :: l | none => l)
      | _, _ => none)
    (some [])

/-- The `count_cards` frequency dictionary, as a counting function. -/
def count_cards (numbers : List Nat) (n : Nat) : Nat := numbers.count n

/-- The `format_output` renderer: ascending-sorted distinct values, each
suffixed with its count when above 1, comma-joined after `"Have: "`. -/
def format_output (numbers : List Nat) : String :=
  let sorted_nums := List.insertionSort (· ≤ ·) numbers.dedup
  let parts := sorted_nums.map fun n =>
    if 1 < count_cards numbers n then
      toString n ++ " x" ++ toString (count_cards numbers n)
    else toString n
  "Have: " ++ String.intercalate ", " parts

/-- Range invariant maintained for the scanner's `last_number` state. -/
def lastInv (last : Option Nat) : Prop :=
  ∀ n, last = some n → 1 ≤ n ∧ n ≤ 9999

theorem parse_compound_number_pos (tokens : List String) (i : Nat) :
    ∀ n c, parse_compound_number tokens i = (some n, c) → 1 ≤ c := by
  intro n c hpc
  unfold parse_compound_number at hpc
  repeat' split at hpc
  all_goals try (unfold hundredTail at hpc; repeat' split at hpc)
  all_goals cases hpc
  all_goals omega

theorem scanStep_advance (tokens : List String) (i : Nat) (last : Option Nat) :
    i < (scanStep tokens i last).2.1 := by
  unfold scanStep
  repeat' split
  all_goals simp
  all_goals
    have h9 := parse_compound_number_pos tokens i _ _ (by assumption)
    omega

theorem scanAux_lt (tokens : List String) (i : Nat) (last : Option Nat)
    (h : i < tokens.length) :
    scanAux tokens i last =
      (scanStep tokens i last).1 ++
        scanAux tokens (scanStep tokens i last).2.1 (scanStep tokens i last).2.2 := by
  rw [scanAux]
  simp [h]

theorem scanAux_ge (tokens : List String) (i : Nat) (last : Option Nat)
    (h : ¬ i < tokens.length) : scanAux tokens i last = [] := by
  rw [scanAux]
  simp [h]

theorem scanFuel_eq : ∀ fuel tokens i last, tokens.length - i ≤ fuel →
    scanFuel fuel tokens i last = some (scanAux tokens i last) := by
  intro fuel
  induction fuel with
  | zero =>
    intro tokens i last hf
    have h : ¬ i < tokens.length := by omega
    rw [scanAux_ge tokens i last h]
    simp [scanFuel, h]
  | succ fuel ih =>
    intro tokens i last hf
    by_cases h : i < tokens.length
    · rw [scanAux_lt tokens i last h]
      have hadv := scanStep_advance tokens i last
      rw [scanFuel, if_pos h,
        ih tokens (scanStep tokens i last).2.1 (scanStep tokens i last).2.2 (by omega)]
      rfl
    · rw [scanAux_ge tokens i last h]
      simp [scanFuel, h]

theorem parse_spoken_numbers_eval (text : String) (out : List Nat)
    (h : scanFuel (tokenize text).length (tokenize text) 0 none = some out) :
    parse_spoken_numbers text = out := by
  have h2 := scanFuel_eq (tokenize text).length (tokenize text) 0 none (by omega)
  rw [h] at h2
  exact (Option.some.injEq _ _ ▸ h2).symm

theorem findIdF_eq : ∀ fuel tokens i, tokens.length - i ≤ fuel →
    findIdF fuel tokens i = some (findId tokens i) := by
  intro fuel
  induction fuel with
  | zero =>
    intro tokens i hf
    have h : ¬ i < tokens.length := by omega
    rw [findId]
    simp [findIdF, h]
  | succ fuel ih =>
    intro tokens i hf
    rw [findIdF, findId]
    by_cases h : i < tokens.length
    · simp only [dif_pos h]
      split
      · rfl
      · split
        · rfl
        · split
          · exact ih tokens (i + 1) (by omega)
          · rfl
    · simp [h]

theorem findQtyF_eq : ∀ fuel tokens i explicit, tokens.length - i ≤ fuel →
    findQtyF fuel tokens i explicit = some (findQty tokens i explicit) := by
  intro fuel
  induction fuel with
  | zero =>
    intro tokens i explicit hf
    have h : ¬ i < tokens.length := by omega
    rw [findQty]
    simp [findQtyF, h]
  | succ fuel ih =>
    intro tokens i explicit hf
    rw [findQtyF, findQty]
    by_cases h : i < tokens.length
    · simp only [dif_pos h]
      split
      · exact ih tokens (i + 1) explicit (by omega)
      · split
        · split
          · rfl
          · by_cases h2 : i + 1 < tokens.length
            · simp only [dif_pos h2]
              split
              · rfl
              · split
                · rfl
                · exact ih tokens (i + 1) true (by omega)
            · simp only [dif_neg h2]
              exact ih tokens (i + 1) true (by omega)
        · split
          · rfl
          · split
            · rfl
            · split
              · rfl
              · exact ih tokens (i + 1) explicit (by omega)
    · simp [h]

theorem segQtyF_eq (fuel : Nat) (tokens : List String) (i : Nat) (rem : Option String)
    (hf : tokens.length - i ≤ fuel) :
    segQtyF fuel tokens i rem = some (segQty tokens i rem) := by
  cases rem with
  | none => exact findQtyF_eq fuel tokens i false hf
  | some r =>
    rcases hq : remQty r with ⟨oq, e⟩
    simp only [segQtyF, segQty, hq]
    cases oq with
    | some q => rfl
    | none => exact findQtyF_eq fuel tokens i e hf

theorem processSegmentF_eq (tokens : List String) :
    processSegmentF tokens = some (processSegment tokens) := by
  unfold processSegmentF processSegment
  rw [findIdF_eq tokens.length tokens 0 (by omega)]
  cases findId tokens 0 with
  | none => rfl
  | some idr =>
    show ((segQtyF tokens.length tokens idr.2.1 idr.2.2).map fun qe =>
      some (qtyTail idr.1 qe)) = _
    rw [segQtyF_eq tokens.length tokens idr.2.1 idr.2.2 (by omega)]
    rfl

theorem parse_card_quantitiesF_eq (text : String) :
    parse_card_quantitiesF text = some (parse_card_quantities text) := by
  unfold parse_card_quantitiesF parse_card_quantities
  induction segsOf text with
  | nil => rfl
  | cons seg segs ih =>
    simp only [List.foldr_cons, List.filterMap_cons, ih, processSegmentF_eq seg]
    cases processSegment seg with
    | none => rfl
    | some pr => rfl

theorem parse_card_quantities_eval (text : String) (out : List (Nat × Nat × ℚ))
    (h : parse_card_quantitiesF text = some out) :
    parse_card_quantities text = out := by
  have h2 := parse_card_quantitiesF_eq text
  rw [h] at h2
  exact (Option.some.injEq _ _ ▸ h2).symm

theorem lt_length_of_some {α : Type} {l : List α} {i : Nat} {a : α}
    (h : l[i]? = some a) : i < l.length := by
  cases Nat.lt_or_ge i l.length with
  | inl h2 => exact h2
  | inr h2 => rw [List.getElem?_eq_none h2] at h; cases h

theorem scanStep_none (tokens : List String) (i : Nat) (last : Option Nat)
    (htok : tokens[i]? = none) : scanStep tokens i last = ([], i + 1, last) := by
  unfold scanStep
  rw [htok]

theorem scanStep_skip (tokens : List String) (i : Nat) (last : Option Nat) (tk : String)
    (htok : tokens[i]? = some tk) (hskip : tk ∈ SKIP_WORDS) :
    scanStep tokens i last = ([], i + 1, last) := by
  unfold scanStep
  rw [htok]
  simp only []
  rw [if_pos hskip]

theorem scanStep_mult_ok (tokens : List String) (i : Nat) (ln : Nat) (tk nt : String)
    (m : Nat) (htok : tokens[i]? = some tk) (hskip : tk ∉ SKIP_WORDS)
    (hmult : tk ∈ MULT_WORDS) (hnt : tokens[i + 1]? = some nt)
    (hm : parse_single_number nt = some m) (h1 : 1 ≤ m) (h2 : m ≤ 50) :
    scanStep tokens i (some ln) = (List.replicate (m - 1) ln, i + 2, some ln) := by
  unfold scanStep
  rw [htok]
  simp only []
  rw [if_neg hskip, if_pos ⟨hmult, rfl⟩, hnt]
  simp only []
  rw [hm]
  simp only []
  rw [if_pos ⟨h1, h2⟩]

theorem scanStep_mult_fail (tokens : List String) (i : Nat) (ln : Nat) (tk : String)
    (htok : tokens[i]? = some tk) (hskip : tk ∉ SKIP_WORDS) (hmult : tk ∈ MULT_WORDS)
    (hfail : ∀ nt m, tokens[i + 1]? = some nt → parse_single_number nt = some m →
      ¬(1 ≤ m ∧ m ≤ 50)) :
    scanStep tokens i (some ln) = ([], i + 1, some ln) := by
  unfold scanStep
  rw [htok]
  simp only []
  rw [if_neg hskip, if_pos ⟨hmult, rfl⟩]
  cases hnt : tokens[i + 1]? with
  | none => rfl
  | some nt =>
    simp only []
    cases hm : parse_single_number nt with
    | none => rfl
    | some m =>
      simp only []
      rw [if_neg (hfail nt m hnt hm)]

theorem scanStep_comp (tokens : List String) (i : Nat) (last : Option Nat) (tk : String)
    (n c : Nat) (htok : tokens[i]? = some tk) (hskip : tk ∉ SKIP_WORDS)
    (hnm : ¬(tk ∈ MULT_WORDS ∧ last.isSome = true))
    (hpc : parse_compound_number tokens i = (some n, c)) (h1 : 1 ≤ n) (h2 : n ≤ 9999) :
    scanStep tokens i last = ([n], i + c, some n) := by
  unfold scanStep
  rw [htok]
  simp only []
  rw [if_neg hskip, if_neg hnm, hpc]
  simp only []
  rw [if_pos ⟨h1, h2⟩]

theorem scanStep_fb_none (tokens : List String) (i : Nat) (last : Option Nat) (tk : String)
    (c : Nat) (htok : tokens[i]? = some tk) (hskip : tk ∉ SKIP_WORDS)
    (hnm : ¬(tk ∈ MULT_WORDS ∧ last.isSome = true))
    (hpc : parse_compound_number tokens i = (none, c)) :
    scanStep tokens i last = (digitValues tk, i + 1, lastUpd (digitValues tk) last) := by
  unfold scanStep
  rw [htok]
  simp only []
  rw [if_neg hskip, if_neg hnm, hpc]

theorem scanStep_fb_range (tokens : List String) (i : Nat) (last : Option Nat) (tk : String)
    (n c : Nat) (htok : tokens[i]? = some tk) (hskip : tk ∉ SKIP_WORDS)
    (hnm : ¬(tk ∈ MULT_WORDS ∧ last.isSome = true))
    (hpc : parse_compound_number tokens i = (some n, c)) (hn : ¬(1 ≤ n ∧ n ≤ 9999)) :
    scanStep tokens i last = (digitValues tk, i + 1, lastUpd (digitValues tk) last) := by
  unfold scanStep
  rw [htok]
  simp only []
  rw [if_neg hskip, if_neg hnm, hpc]
  simp only []
  rw [if_neg hn]

theorem digitValues_range (t : String) : ∀ v ∈ digitValues t, 1 ≤ v ∧ v ≤ 9999 := by
  intro v hv
  unfold digitValues at hv
  rw [List.mem_filter] at hv
  have h2 := hv.2
  simp only [Bool.and_eq_true, decide_eq_true_eq] at h2
  exact h2

theorem mem_of_getLast?_eq {l : List Nat} {v : Nat} (h : l.getLast? = some v) : v ∈ l := by
  have hm : v ∈ l.getLast? := h
  obtain ⟨hne, hx⟩ := List.mem_getLast?_eq_getLast hm
  rw [hx]
  exact List.getLast_mem hne

theorem lastUpd_inv (ds : List Nat) (last : Option Nat)
    (hds : ∀ v ∈ ds, 1 ≤ v ∧ v ≤ 9999) (hl : lastInv last) : lastInv (lastUpd ds last) := by
  unfold lastUpd
  cases hgl : ds.getLast? with
  | none => exact hl
  | some v =>
    intro n hn
    cases hn
    exact hds v (mem_of_getLast?_eq hgl)

theorem mult_not_skip : ∀ t ∈ MULT_WORDS, t ∉ SKIP_WORDS := by decide

theorem scanStep_inv (tokens : List String) (i : Nat) (last : Option Nat)
    (hl : lastInv last) :
    (∀ v ∈ (scanStep tokens i last).1, 1 ≤ v ∧ v ≤ 9999) ∧
      lastInv (scanStep tokens i last).2.2 := by
  cases htok : tokens[i]? with
  | none => rw [scanStep_none tokens i last htok]; exact ⟨by simp, hl⟩
  | some tk =>
    by_cases hskip : tk ∈ SKIP_WORDS
    · rw [scanStep_skip tokens i last tk htok hskip]; exact ⟨by simp, hl⟩
    · by_cases hmult : tk ∈ MULT_WORDS ∧ last.isSome = true
      · obtain ⟨ln, hln⟩ := Option.isSome_iff_exists.mp hmult.2
        subst hln
        by_cases hx : ∃ nt m, tokens[i + 1]? = some nt ∧ parse_single_number nt = some m ∧
          1 ≤ m ∧ m ≤ 50
        · obtain ⟨nt, m, hnt, hm, h1, h2⟩ := hx
          rw [scanStep_mult_ok tokens i ln tk nt m htok hskip hmult.1 hnt hm h1 h2]
          refine ⟨?_, hl⟩
          intro v hv
          rw [List.eq_of_mem_replicate hv]
          exact hl ln rfl
        · rw [scanStep_mult_fail tokens i ln tk htok hskip hmult.1
            (fun nt m hnt hm hc => hx ⟨nt, m, hnt, hm, hc⟩)]
          exact ⟨by simp, hl⟩
      · rcases hpc : parse_compound_number tokens i with ⟨onum, c⟩
        cases onum with
        | some n =>
          by_cases hn : 1 ≤ n ∧ n ≤ 9999
          · rw [scanStep_comp tokens i last tk n c htok hskip hmult hpc hn.1 hn.2]
            refine ⟨?_, ?_⟩
            · intro v hv
              rw [List.mem_singleton] at hv
              rw [hv]
              exact hn
            · intro n2 hn2
              cases hn2
              exact hn
          · rw [scanStep_fb_range tokens i last tk n c htok hskip hmult hpc hn]
            exact ⟨digitValues_range tk, lastUpd_inv _ _ (digitValues_range tk) hl⟩
        | none =>
          rw [scanStep_fb_none tokens i last tk c htok hskip hmult hpc]
          exact ⟨digitValues_range tk, lastUpd_inv _ _ (digitValues_range tk) hl⟩

theorem scan_range : ∀ bound tokens i last, tokens.length - i ≤ bound → lastInv last →
    ∀ v ∈ scanAux tokens i last, 1 ≤ v ∧ v ≤ 9999 := by
  intro bound
  induction bound with
  | zero =>
    intro tokens i last hb hl v hv
    rw [scanAux_ge tokens i last (by omega)] at hv
    cases hv
  | succ bound ih =>
    intro tokens i last hb hl v hv
    by_cases h : i < tokens.length
    · rw [scanAux_lt tokens i last h] at hv
      rcases List.mem_append.mp hv with hv1 | hv2
      · exact (scanStep_inv tokens i last hl).1 v hv1
      · have hadv := scanStep_advance tokens i last
        exact ih tokens (scanStep tokens i last).2.1 (scanStep tokens i last).2.2
          (by omega) (scanStep_inv tokens i last hl).2 v hv2
    · rw [scanAux_ge tokens i last h] at hv
      cases hv

/-- Claim C1: at a multiplier word with `last_value` set, if the next token
decodes (lexicon or digit rule) to `m` with `1 ≤ m ≤ 50`, exactly `m - 1`
additional copies of the last value are emitted and the position advances
by 2; otherwise only the multiplier word is skipped, nothing is emitted,
and the next token is re-evaluated at the next position.  In particular
`parse_numbers "42 times 50" = [42] * 50` and
`parse_numbers "42 times 51" = [42, 51]`. -/
theorem multiplier_rule :
    (∀ tokens i ln tk nt m, tokens[i]? = some tk → tk ∈ MULT_WORDS →
      tokens[i + 1]? = some nt → parse_single_number nt = some m → 1 ≤ m → m ≤ 50 →
      scanAux tokens i (some ln) =
        List.replicate (m - 1) ln ++ scanAux tokens (i + 2) (some ln)) ∧
    (∀ tokens i ln tk, tokens[i]? = some tk → tk ∈ MULT_WORDS →
      (∀ nt m, tokens[i + 1]? = some nt → parse_single_number nt = some m →
        ¬(1 ≤ m ∧ m ≤ 50)) →
      scanAux tokens i (some ln) = scanAux tokens (i + 1) (some ln)) ∧
    parse_spoken_numbers "42 times 50" = List.replicate 50 42 ∧
    parse_spoken_numbers "42 times 51" = [42, 51] := by
  refine ⟨?_, ?_, ?_, ?_⟩
  · intro tokens i ln tk nt m htok hmult hnt hm h1 h2
    rw [scanAux_lt tokens i (some ln) (lt_length_of_some htok),
      scanStep_mult_ok tokens i ln tk nt m htok (mult_not_skip tk hmult) hmult hnt hm h1 h2]
  · intro tokens i ln tk htok hmult hfail
    rw [scanAux_lt tokens i (some ln) (lt_length_of_some htok),
      scanStep_mult_fail tokens i ln tk htok (mult_not_skip tk hmult) hmult hfail]
    rfl
  · exact parse_spoken_numbers_eval _ _ (by decide)
  · exact parse_spoken_numbers_eval _ _ (by decide)

/-- Witness for C1: both multiplier branches applied at concrete inputs. -/
theorem multiplier_rule_witness :
    scanAux ["7", "times", "3"] 1 (some 7) =
      List.replicate 2 7 ++ scanAux ["7", "times", "3"] 3 (some 7) :=
  multiplier_rule.1 ["7", "times", "3"] 1 7 "times" "3" 3 (by decide) (by decide)
    (by decide) (by decide) (by decide) (by decide)

/-- Claim C5: every element of the scanner's output lies in `1..9999` for
every input string; `0` and values above `9999` are silently dropped.  In
particular `parse_numbers "0" = []`, `parse_numbers "10000" = []` and
`parse_numbers "9999" = [9999]`. -/
theorem output_range :
    (∀ text v, v ∈ parse_spoken_numbers text → 1 ≤ v ∧ v ≤ 9999) ∧
    parse_spoken_numbers "0" = [] ∧
    parse_spoken_numbers "10000" = [] ∧
    parse_spoken_numbers "9999" = [9999] := by
  refine ⟨?_, ?_, ?_, ?_⟩
  · intro text v hv
    exact scan_range (tokenize text).length (tokenize text) 0 none (by omega)
      (fun n hn => by cases hn) v hv
  · exact parse_spoken_numbers_eval _ _ (by decide)
  · exact parse_spoken_numbers_eval _ _ (by decide)
  · exact parse_spoken_numbers_eval _ _ (by decide)

/-- Witness for C5: the range bound applied to the element of
`parse_numbers "9999"`. -/
theorem output_range_witness : 1 ≤ 9999 ∧ 9999 ≤ 9999 :=
  output_range.1 "9999" 9999
    (by rw [output_range.2.2.2]; exact List.mem_singleton.mpr rfl)

/-- Claim C6: both parsers are total: on every input string the scanning
loops terminate within `tokens.length` iterations and produce a value, so
each function returns a (possibly empty) list and failure is only ever
absence of output. -/
theorem parsers_total : ∀ text,
    scanFuel (tokenize text).length (tokenize text) 0 none =
      some (parse_spoken_numbers text) ∧
    parse_card_quantitiesF text = some (parse_card_quantities text) :=
  fun text =>
    ⟨scanFuel_eq (tokenize text).length (tokenize text) 0 none (by omega),
     parse_card_quantitiesF_eq text⟩

/-- Claim C8: the scanner terminates because every iteration of its loop
strictly increases the position: the next position exceeds the current one
in every branch, and a successful compound match consumes at least one
token. -/
theorem scanner_advances :
    (∀ tokens i last, i < (scanStep tokens i last).2.1) ∧
    (∀ tokens i n c, parse_compound_number tokens i = (some n, c) → 1 ≤ c) :=
  ⟨scanStep_advance, parse_compound_number_pos⟩

/-- Witness for C8: the advance facts at a concrete input. -/
theorem scanner_advances_witness :
    0 < (scanStep ["42"] 0 none).2.1 ∧ 1 ≤ (parse_compound_number ["42"] 0).2 :=
  ⟨scanner_advances.1 ["42"] 0 none, scanner_advances.2 ["42"] 0 42 1 (by decide)⟩

/-- Claim C3: in the hundreds rule, after `<digit> hundred` (and an
optional `and`), a token decoding to `1..19` is added and the match ends
with no further lookahead (the trailing context `rest` is arbitrary),
while a token decoding to `20..90` is added and one further token is
added only if it decodes to `1..9`; the accumulated value and count are
returned even when the trailing lookups fail.  Hence
`parse_numbers "one hundred twenty three" = [123]` and
`parse_numbers "nine hundred ninety nine" = [999]`. -/
theorem hundreds_rule :
    (∀ wd d vtok v rest, isDigits wd = false → WORD_TO_NUM wd = some d → 1 ≤ d → d ≤ 9 →
      parse_single_number vtok = some v → 1 ≤ v → v ≤ 19 →
      parse_compound_number (wd :: "hundred" :: vtok :: rest) 0 = (some (d * 100 + v), 3)) ∧
    (∀ wd d vtok v rest, isDigits wd = false → WORD_TO_NUM wd = some d → 1 ≤ d → d ≤ 9 →
      parse_single_number vtok = some v → 1 ≤ v → v ≤ 19 →
      parse_compound_number (wd :: "hundred" :: "and" :: vtok :: rest) 0 =
        (some (d * 100 + v), 4)) ∧
    (∀ wd d vtok v otok o rest, isDigits wd = false → WORD_TO_NUM wd = some d →
      1 ≤ d → d ≤ 9 → parse_single_number vtok = some v → 20 ≤ v → v ≤ 90 →
      parse_single_number otok = some o → 1 ≤ o → o ≤ 9 →
      parse_compound_number (wd :: "hundred" :: vtok :: otok :: rest) 0 =
        (some (d * 100 + v + o), 4)) ∧
    (∀ wd d vtok v otok rest, isDigits wd = false → WORD_TO_NUM wd = some d →
      1 ≤ d → d ≤ 9 → parse_single_number vtok = some v → 20 ≤ v → v ≤ 90 →
      (∀ o, parse_single_number otok = some o → ¬(1 ≤ o ∧ o ≤ 9)) →
      parse_compound_number (wd :: "hundred" :: vtok :: otok :: rest) 0 =
        (some (d * 100 + v), 3)) ∧
    (∀ wd d vtok rest, isDigits wd = false → WORD_TO_NUM wd = some d → 1 ≤ d → d ≤ 9 →
      parse_single_number vtok = none → vtok ≠ "and" →
      parse_compound_number (wd :: "hundred" :: vtok :: rest) 0 = (some (d * 100), 2)) ∧
    parse_spoken_numbers "one hundred twenty three" = [123] ∧
    parse_spoken_numbers "nine hundred ninety nine" = [999] := by
  have hand : parse_single_number "and" = none := by decide
  refine ⟨?_, ?_, ?_, ?_, ?_, ?_, ?_⟩
  · intro wd d vtok v rest hdig hw hd1 hd9 hv h1 h19
    have hvand : vtok ≠ "and" := by
      intro he
      rw [he, hand] at hv
      cases hv
    have h02 : (wd :: "hundred" :: vtok :: rest)[0 + 2]? = some vtok := by simp
    unfold parse_compound_number
    rw [show (wd :: "hundred" :: vtok :: rest)[0]? = some wd from by simp]
    simp only []
    rw [if_neg (by simp [hdig]), hw]
    simp only []
    rw [if_pos ⟨hd1, hd9, by simp⟩, h02, if_neg (by simp [hvand])]
    unfold hundredTail
    rw [h02]
    simp only []
    rw [hv]
    simp only []
    rw [if_pos ⟨h1, h19⟩]
  · intro wd d vtok v rest hdig hw hd1 hd9 hv h1 h19
    have h03 : (wd :: "hundred" :: "and" :: vtok :: rest)[0 + 3]? = some vtok := by simp
    unfold parse_compound_number
    rw [show (wd :: "hundred" :: "and" :: vtok :: rest)[0]? = some wd from by simp]
    simp only []
    rw [if_neg (by simp [hdig]), hw]
    simp only []
    rw [if_pos ⟨hd1, hd9, by simp⟩, if_pos (by simp)]
    unfold hundredTail
    rw [h03]
    simp only []
    rw [hv]
    simp only []
    rw [if_pos ⟨h1, h19⟩]
  · intro wd d vtok v otok o rest hdig hw hd1 hd9 hv h20 h90 ho ho1 ho9
    have hvand : vtok ≠ "and" := by
      intro he
      rw [he, hand] at hv
      cases hv
    have h02 : (wd :: "hundred" :: vtok :: otok :: rest)[0 + 2]? = some vtok := by simp
    have h03 : (wd :: "hundred" :: vtok :: otok :: rest)[0 + 2 + 1]? = some otok := by simp
    unfold parse_compound_number
    rw [show (wd :: "hundred" :: vtok :: otok :: rest)[0]? = some wd from by simp]
    simp only []
    rw [if_neg (by simp [hdig]), hw]
    simp only []
    rw [if_pos ⟨hd1, hd9, by simp⟩, h02, if_neg (by simp [hvand])]
    unfold hundredTail
    rw [h02]
    simp only []
    rw [hv]
    simp only []
    rw [if_neg (by omega), if_pos ⟨h20, h90⟩, h03]
    simp only []
    rw [ho]
    simp only []
    rw [if_pos ⟨ho1, ho9⟩]
  · intro wd d vtok v otok rest hdig hw hd1 hd9 hv h20 h90 hfail
    have hvand : vtok ≠ "and" := by
      intro he
      rw [he, hand] at hv
      cases hv
    have h02 : (wd :: "hundred" :: vtok :: otok :: rest)[0 + 2]? = some vtok := by simp
    have h03 : (wd :: "hundred" :: vtok :: otok :: rest)[0 + 2 + 1]? = some otok := by simp
    unfold parse_compound_number
    rw [show (wd :: "hundred" :: vtok :: otok :: rest)[0]? = some wd from by simp]
    simp only []
    rw [if_neg (by simp [hdig]), hw]
    simp only []
    rw [if_pos ⟨hd1, hd9, by simp⟩, h02, if_neg (by simp [hvand])]
    unfold hundredTail
    rw [h02]
    simp only []
    rw [hv]
    simp only []
    rw [if_neg (by omega), if_pos ⟨h20, h90⟩, h03]
    simp only []
    cases hom : parse_single_number otok with
    | none => rfl
    | some o =>
      simp only []
      rw [if_neg (hfail o hom)]
  · intro wd d vtok rest hdig hw hd1 hd9 hv hvand
    have h02 : (wd :: "hundred" :: vtok :: rest)[0 + 2]? = some vtok := by simp
    unfold parse_compound_number
    rw [show (wd :: "hundred" :: vtok :: rest)[0]? = some wd from by simp]
    simp only []
    rw [if_neg (by simp [hdig]), hw]
    simp only []
    rw [if_pos ⟨hd1, hd9, by simp⟩, h02, if_neg (by simp [hvand])]
    unfold hundredTail
    rw [h02]
    simp only []
    rw [hv]
  · exact parse_spoken_numbers_eval _ _ (by decide)
  · exact parse_spoken_numbers_eval _ _ (by decide)

/-- Witness for C3: the teens and tens branches of the hundreds rule at
concrete inputs. -/
theorem hundreds_rule_witness :
    parse_compound_number ["two", "hundred", "eleven", "nine"] 0 = (some 211, 3) ∧
    parse_compound_number ["two", "hundred", "ninety", "nine"] 0 = (some 299, 4) :=
  ⟨hundreds_rule.1 "two" 2 "eleven" 11 ["nine"] (by decide) (by decide) (by decide)
      (by decide) (by decide) (by decide) (by decide),
   hundreds_rule.2.2.1 "two" 2 "ninety" 90 "nine" 9 [] (by decide) (by decide) (by decide)
      (by decide) (by decide) (by decide) (by decide) (by decide) (by decide) (by decide)⟩

/-- Claim C4: the grammar merges only tens+ones and hundreds+tail: a tens
word followed by a token that does not decode to `1..9` is matched alone,
and `and` is consumed only in the post-hundred position, so
`parse_numbers "twenty twenty" = [20, 20]`,
`parse_numbers "42 42 42" = [42, 42, 42]`,
`parse_numbers "five hundred and twelve" = [512]` and
`parse_numbers "is that a one or a two" = [1, 2]`. -/
theorem no_merge_rule :
    (∀ wd v nt rest, isDigits wd = false → WORD_TO_NUM wd = some v → 20 ≤ v → v ≤ 90 →
      (∀ m, parse_single_number nt = some m → ¬(1 ≤ m ∧ m ≤ 9)) →
      parse_compound_number (wd :: nt :: rest) 0 = (some v, 1)) ∧
    (∀ wd v rest, isDigits wd = false → WORD_TO_NUM wd = some v →
      parse_compound_number (wd :: "and" :: rest) 0 = (some v, 1)) ∧
    parse_spoken_numbers "twenty twenty" = [20, 20] ∧
    parse_spoken_numbers "42 42 42" = [42, 42, 42] ∧
    parse_spoken_numbers "five hundred and twelve" = [512] ∧
    parse_spoken_numbers "is that a one or a two" = [1, 2] := by
  refine ⟨?_, ?_, ?_, ?_, ?_, ?_⟩
  · intro wd v nt rest hdig hw h20 h90 hfail
    unfold parse_compound_number
    rw [show (wd :: nt :: rest)[0]? = some wd from by simp]
    simp only []
    rw [if_neg (by simp [hdig]), hw]
    simp only []
    rw [if_neg (by rintro ⟨-, hb, -⟩; omega), if_pos ⟨h20, h90⟩,
      show (wd :: nt :: rest)[0 + 1]? = some nt from by simp]
    simp only []
    cases hm : parse_single_number nt with
    | none => rfl
    | some m =>
      simp only []
      rw [if_neg (hfail m hm)]
  · intro wd v rest hdig hw
    unfold parse_compound_number
    rw [show (wd :: "and" :: rest)[0]? = some wd from by simp]
    simp only []
    rw [if_neg (by simp [hdig]), hw]
    simp only []
    rw [if_neg (by rintro ⟨-, -, hc⟩; simp at hc)]
    by_cases hv : 20 ≤ v ∧ v ≤ 90
    · rw [if_pos hv, show (wd :: "and" :: rest)[0 + 1]? = some "and" from by simp]
      simp only []
      rw [show parse_single_number "and" = none from by decide]
    · rw [if_neg hv]
  · exact parse_spoken_numbers_eval _ _ (by decide)
  · exact parse_spoken_numbers_eval _ _ (by decide)
  · exact parse_spoken_numbers_eval _ _ (by decide)
  · exact parse_spoken_numbers_eval _ _ (by decide)

/-- Witness for C4: both no-merge facts at concrete inputs. -/
theorem no_merge_rule_witness :
    parse_compound_number ["twenty", "forty"] 0 = (some 20, 1) ∧
    parse_compound_number ["twelve", "and", "six"] 0 = (some 12, 1) :=
  ⟨no_merge_rule.1 "twenty" 20 "forty" [] (by decide) (by decide) (by decide) (by decide)
      (by
        intro m hm
        have h40 : parse_single_number "forty" = some 40 := by decide
        rw [h40] at hm
        cases hm
        decide),
   no_merge_rule.2.1 "twelve" 12 ["six"] (by decide) (by decide)⟩

theorem findId_eval (tokens : List String) (r : Option (Nat × Nat × Option String))
    (h : findIdF tokens.length tokens 0 = some r) : findId tokens 0 = r := by
  have h2 := findIdF_eq tokens.length tokens 0 (by omega)
  rw [h] at h2
  exact (Option.some.injEq _ _ ▸ h2).symm

/-- Claim C2, counterexample: the quantity of `"card 55 q a 20"` is found
positionally (the keyword token `q` supplies no number), yet the returned
confidence is 0.98, not 0.70: once a quantity-keyword token is seen, the
explicit flag stays raised for the rest of the segment. -/
theorem confidence_policy_cex :
    parse_card_quantities "card 55 q a 20" = [(55, 20, 0.98)] ∧ (0.98 : ℚ) ≠ 0.70 :=
  ⟨parse_card_quantities_eval _ _ (by decide), by decide⟩

/-- Claim C2, amended: confidence is assigned from the explicit-keyword
flag of quantity resolution, not from how the number itself was found: no
quantity gives `(qty 1, 0.85)`; a quantity found while the flag is raised
(a quantity-keyword token was encountered, even if the number was later
taken positionally) gives 0.98; a quantity found with the flag down gives
0.70; a zero quantity caps the confidence at 0.5.  The claim's own
examples hold, e.g. `parse_pairs "card 55 20" = [(55, 20, 0.70)]`. -/
theorem confidence_policy_amended :
    (∀ tokens cid i rem, findId tokens 0 = some (cid, i, rem) →
      processSegment tokens = some (cid,
        match segQty tokens i rem with
        | (none, _) => (1, (0.85 : ℚ))
        | (some q, e) => (q, if q = 0 then (0.5 : ℚ) else if e then 0.98 else 0.70))) ∧
    parse_card_quantities "card 55 20" = [(55, 20, 0.70)] ∧
    parse_card_quantities "card 55 q 20" = [(55, 20, 0.98)] ∧
    parse_card_quantities "card 55" = [(55, 1, 0.85)] ∧
    parse_card_quantities "card 55 q 0" = [(55, 0, 0.5)] := by
  refine ⟨?_, ?_, ?_, ?_, ?_⟩
  · intro tokens cid i rem hid
    unfold processSegment
    rw [hid]
    show some (qtyTail cid (segQty tokens i rem)) = _
    rcases hsq : segQty tokens i rem with ⟨oq, e⟩
    cases oq with
    | none => rfl
    | some q =>
      show some (cid, q, confOf e q) =
        some (cid, q, if q = 0 then (0.5 : ℚ) else if e then 0.98 else 0.70)
      by_cases hq : q = 0
      · subst hq
        rw [if_pos rfl]
        cases e
        · show some (cid, 0, confOf false 0) = some (cid, 0, (0.5 : ℚ))
          rw [show confOf false 0 = (0.5 : ℚ) from by decide]
        · show some (cid, 0, confOf true 0) = some (cid, 0, (0.5 : ℚ))
          rw [show confOf true 0 = (0.5 : ℚ) from by decide]
      · rw [if_neg hq]
        simp only [confOf]
        rw [if_neg hq]
  · exact parse_card_quantities_eval _ _ (by decide)
  · exact parse_card_quantities_eval _ _ (by decide)
  · exact parse_card_quantities_eval _ _ (by decide)
  · exact parse_card_quantities_eval _ _ (by decide)

/-- Witness for C2 (amended): the policy applied to the segment of
`"card 55 20"`. -/
theorem confidence_policy_amended_witness :
    processSegment ["55", "20"] = some (55,
      match segQty ["55", "20"] 1 none with
      | (none, _) => (1, (0.85 : ℚ))
      | (some q, e) => (q, if q = 0 then (0.5 : ℚ) else if e then 0.98 else 0.70)) :=
  confidence_policy_amended.1 ["55", "20"] 55 1 none (findId_eval _ _ (by decide))

/-- Claim C7: `format_output` renders `"Have: "` followed by the
comma-joined ascending-sorted distinct values, each suffixed with
`" x{count}"` when its count exceeds 1; the empty list renders as
`"Have: "`; and the rendering is invariant under permutation of the
input. -/
theorem format_output_spec :
    format_output [] = "Have: " ∧
    (∀ l₁ l₂ : List Nat, l₁.Perm l₂ → format_output l₁ = format_output l₂) ∧
    format_output [2, 1, 1] = "Have: 1 x2, 2" := by
  refine ⟨by decide, ?_, by decide⟩
  intro l₁ l₂ h
  have hcnt : ∀ n, count_cards l₁ n = count_cards l₂ n := fun n => h.count_eq n
  have hkeys : List.insertionSort (· ≤ ·) l₁.dedup = List.insertionSort (· ≤ ·) l₂.dedup :=
    List.eq_of_perm_of_sorted
      ((List.perm_insertionSort _ _).trans ((h.dedup).trans
        (List.perm_insertionSort _ _).symm))
      (List.sorted_insertionSort _ _) (List.sorted_insertionSort _ _)
  simp only [format_output, hkeys, hcnt]

/-- Witness for C7: permutation invariance at a concrete pair of lists. -/
theorem format_output_spec_witness : format_output [3, 1] = format_output [1, 3] :=
  format_output_spec.2.1 [3, 1] [1, 3] (by decide)

/-- Claim C9: `parse_card_quantities` applies no `1..9999` range check to
the card id or the quantity: every segment in which an id is found
contributes a pair, and `parse_pairs "card 0" = [(0, 1, 0.85)]`,
`parse_pairs "card 12345" = [(12345, 1, 0.85)]`,
`parse_pairs "card 5 12345" = [(5, 12345, 0.70)]`. -/
theorem no_range_check_pairs :
    (∀ tokens cid i rem, findId tokens 0 = some (cid, i, rem) →
      ∃ q c, processSegment tokens = some (cid, q, c)) ∧
    parse_card_quantities "card 0" = [(0, 1, 0.85)] ∧
    parse_card_quantities "card 12345" = [(12345, 1, 0.85)] ∧
    parse_card_quantities "card 5 12345" = [(5, 12345, 0.70)] := by
  refine ⟨?_, ?_, ?_, ?_⟩
  · intro tokens cid i rem hid
    refine ⟨(qtyTail cid (segQty tokens i rem)).2.1,
      (qtyTail cid (segQty tokens i rem)).2.2, ?_⟩
    unfold processSegment
    rw [hid]
    show some (qtyTail cid (segQty tokens i rem)) = _
    rcases segQty tokens i rem with ⟨_ | q, e⟩ <;> rfl
  · exact parse_card_quantities_eval _ _ (by decide)
  · exact parse_card_quantities_eval _ _ (by decide)
  · exact parse_card_quantities_eval _ _ (by decide)

/-- Witness for C9: the out-of-band id 0 still contributes a pair. -/
theorem no_range_check_pairs_witness :
    ∃ q c, processSegment ["0"] = some (0, q, c) :=
  no_range_check_pairs.1 ["0"] 0 1 none (findId_eval _ _ (by decide))

/-- Claim C10: the non-empty text before the first `card` keyword forms
its own segment, parsed like any other, and contributes its pair first:
`parse_pairs "55 card 7" = [(55, 1, 0.85), (7, 1, 0.85)]`. -/
theorem pre_keyword_segment :
    segsOf "55 card 7" = [["55"], ["7"]] ∧
    parse_card_quantities "55 card 7" = [(55, 1, 0.85), (7, 1, 0.85)] ∧
    parse_card_quantities "12 card 9 x 2" = [(12, 1, 0.85), (9, 2, 0.98)] :=
  ⟨by decide, parse_card_quantities_eval _ _ (by decide),
   parse_card_quantities_eval _ _ (by decide)⟩
